import Mathlib

/-!
Shallow embedding of the camera streaming core of bloobin-detection-py
(src/libs/camera.py): the bounded frame queue with drop-oldest overflow
handling in QueueOutput.outputframe, the 90 kHz timestamp synthesis, the
bounded-wait consumer PiCameraStream.recv, the executor-based hardware
arbitration (capture_array, capture_image, get_camera_info and their
direct counterparts), the lifecycle teardown in PiCameraStream.stop and
the destructor, and a small interleaving model of the device mutex
(the instance lock) wrapped around every direct device operation.

Machine integers are modelled as Nat. The Python pts computation
int(timestamp * 90 / 1000) is modelled as Nat division, which is the
floor of the exact quotient for the non-negative operands in scope.
Exceptions are modelled with Except over an abstract error type; the
Python try/except blocks become matches on those Except values.
-/

/-- Abstract Python exception values; the code distinguishes them only by
handler, never by message. -/
inductive PyErr where
  | queueFull
  | queueEmpty
  | runtimeStopped
  | deviceFailure
  | packetFailure
  | stepFailure
  deriving DecidableEq

/-- Model of Python queue.Queue(maxsize): a FIFO list with a capacity bound.
A maxsize of 0 means unbounded, as in Python. -/
structure PyQueue (α : Type) where
  maxsize : Nat
  items : List α
  deriving DecidableEq

namespace PyQueue

variable {α : Type}

/-- Queue.full(): true iff maxsize is positive and the size has reached it. -/
def full (q : PyQueue α) : Bool := 0 < q.maxsize && q.maxsize ≤ q.items.length

/-- Queue.put_nowait(x): raises queue.Full when the queue is full, otherwise
appends x at the tail. -/
def put_nowait (q : PyQueue α) (x : α) : Except PyErr (PyQueue α) :=
  if q.full then Except.error PyErr.queueFull
  else Except.ok { q with items := q.items ++ [x] }

/-- Queue.get_nowait(): raises queue.Empty when the queue is empty, otherwise
removes and returns the head. -/
def get_nowait (q : PyQueue α) : Except PyErr (α × PyQueue α) :=
  match q.items with
  | [] => Except.error PyErr.queueEmpty
  | x :: rest => Except.ok (x, { q with items := rest })

/-- Outcome of the nested put/get logic in QueueOutput.outputframe
(camera.py lines 97 to 109): the queue after the operation, whether the new
element was admitted (exactly the branches that reach the frame_index
increment), and whether an exception escaped past the inner handlers to the
outer one. -/
structure EnqueueResult (α : Type) where
  queue : PyQueue α
  inserted : Bool
  raised : Bool
  deriving DecidableEq

/-- Drop-oldest insertion, mirroring outputframe: try put_nowait; on
queue.Full, get_nowait the oldest and retry put_nowait; on queue.Empty in
that handler, put_nowait again; an exception not handled by the inner
handlers propagates to the outer handler, reported in the raised flag. -/
def enqueueDropOldest (q : PyQueue α) (x : α) : EnqueueResult α :=
  match q.put_nowait x with
  | Except.ok q1 => ⟨q1, true, false⟩
  | Except.error _ =>
    match q.get_nowait with
    | Except.ok (_, q1) =>
      match q1.put_nowait x with
      | Except.ok q2 => ⟨q2, true, false⟩
      | Except.error _ => ⟨q1, false, true⟩
    | Except.error _ =>
      match q.put_nowait x with
      | Except.ok q1 => ⟨q1, true, false⟩
      | Except.error _ => ⟨q, false, true⟩

/-- Sequence of producer pushes with no intervening pops. -/
def pushSeq (q : PyQueue α) (xs : List α) : PyQueue α :=
  xs.foldl (fun acc x => (acc.enqueueDropOldest x).queue) q

end PyQueue

/-- Queue capacity configured in PiCameraStream: queue.Queue(maxsize=30). -/
def defaultQueueMaxsize : Nat := 30

/-- TimestampSynthesizer of QueueOutput.outputframe line 87: a raw timestamp
in microseconds becomes 90 kHz clock units via int(timestamp * 90 / 1000);
for non-negative integers the exact division followed by int truncation is
the floor of the quotient, which is Nat division. -/
def synthesize (timestamp_us : Nat) : Nat := timestamp_us * 90 / 1000

/-- Encoded frame packet as built by outputframe: av.Packet payload with the
pts and time_base fields the code assigns. -/
structure Packet where
  payload : Nat
  pts : Nat
  time_base : Nat × Nat
  deriving DecidableEq

/-- One invocation of the encoder callback: the encoded payload, the keyframe
flag, the optional raw timestamp in microseconds, and whether the av.Packet
construction (lines 82 to 93) succeeds on this input. -/
structure FrameInput where
  frame : Nat
  keyframe : Bool
  timestamp : Option Nat
  constructOk : Bool
  deriving DecidableEq

/-- Packet construction of outputframe lines 82 to 93: pts comes from the raw
timestamp when one is supplied, otherwise from the current wall clock
time.time_ns() // 1000 converted the same way; time_base is always
Fraction(1, 90000). -/
def mkPacket (now_ns : Nat) (inp : FrameInput) : Packet :=
  { payload := inp.frame,
    pts := match inp.timestamp with
      | some ts => synthesize ts
      | none => synthesize (now_ns / 1000),
    time_base := (1, 90000) }

/-- State of the QueueOutput producer: the shared frame queue and the
frame_index counter. -/
structure QueueOutput where
  queue : PyQueue Packet
  frame_index : Nat
  deriving DecidableEq

/-- QueueOutput.outputframe (lines 76 to 114): construct the packet, run the
drop-oldest enqueue, and bump frame_index exactly on the branches whose
increment statement is reached; the outer handler swallows a construction
failure, and an exception escaping the inner handlers, leaving frame_index
untouched in both cases. -/
def QueueOutput.outputframe (s : QueueOutput) (now_ns : Nat) (inp : FrameInput) :
    QueueOutput :=
  if inp.constructOk then
    let r := s.queue.enqueueDropOldest (mkPacket now_ns inp)
    { queue := r.queue,
      frame_index := if r.inserted then s.frame_index + 1 else s.frame_index }
  else s

/-- Sequence of encoder callback invocations, each with its own wall clock
reading and input. -/
def runProducer (s : QueueOutput) (calls : List (Nat × FrameInput)) : QueueOutput :=
  calls.foldl (fun acc c => acc.outputframe c.1 c.2) s

/-- Result of PiCameraStream.recv: either a packet, or the asyncio
CancelledError signal that the code raises for the stopped state, for
queue.Empty and for any other exception. -/
inductive RecvResult where
  | packet (p : Packet)
  | cancelledError
  deriving DecidableEq

/-- One recv call: its result, whether it performed the bounded queue.get
wait, and the queue afterwards. -/
structure RecvStep where
  result : RecvResult
  waited : Bool
  queueAfter : PyQueue Packet
  deriving DecidableEq

namespace PiCameraStream

/-- Poll timeout used by recv: queue.get(timeout=1.0). -/
def recvPollTimeoutSeconds : Nat := 1

/-- PiCameraStream.recv (lines 166 to 188): when stopped, raise
CancelledError immediately with no wait; otherwise perform the bounded
queue.get, returning the head packet when one is available within the wait,
and mapping queue.Empty, and any other exception, to CancelledError. -/
def recv (stopped : Bool) (q : PyQueue Packet) : RecvStep :=
  if stopped then ⟨RecvResult.cancelledError, false, q⟩
  else
    match q.items with
    | [] => ⟨RecvResult.cancelledError, true, q⟩
    | p :: rest => ⟨RecvResult.packet p, true, ⟨q.maxsize, rest⟩⟩

/-- Kinds of hardware-touching operations submitted to the arbitrator. -/
inductive OpKind where
  | stillImage
  | rawArray
  | cameraInfo
  deriving DecidableEq

/-- Per-kind caller deadline in seconds: future.result(timeout=10.0) in
capture_image, timeout=5.0 in capture_array, timeout=2.0 in
get_camera_info. -/
def deadlineSeconds : OpKind → Nat
  | OpKind.stillImage => 10
  | OpKind.rawArray => 5
  | OpKind.cameraInfo => 2

/-- Worker count of the executor: ThreadPoolExecutor(max_workers=1). -/
def executorMaxWorkers : Nat := 1

/-- PiCameraStream._capture_frame_direct (lines 211 to 224): raise
RuntimeError when stopped; otherwise, under the device lock, call
picam2.capture_array, returning None when the device call raises. hwOk
abstracts whether the device call succeeds and v the value it returns. -/
def _capture_frame_direct (stopped hwOk : Bool) (v : Nat) :
    Except PyErr (Option Nat) :=
  if stopped then Except.error PyErr.runtimeStopped
  else if hwOk then Except.ok (some v) else Except.ok none

/-- PiCameraStream._capture_image_direct (lines 246 to 263): same shape as
_capture_frame_direct with the capture_request based still capture. -/
def _capture_image_direct (stopped hwOk : Bool) (v : Nat) :
    Except PyErr (Option Nat) :=
  if stopped then Except.error PyErr.runtimeStopped
  else if hwOk then Except.ok (some v) else Except.ok none

/-- PiCameraStream._get_camera_info_direct (lines 282 to 295): no stopped
check; under the device lock read the camera properties, returning None when
that raises. -/
def _get_camera_info_direct (hwOk : Bool) (v : Nat) : Except PyErr (Option Nat) :=
  if hwOk then Except.ok (some v) else Except.ok none

/-- Jobs submitted to the single executor worker that have not finished. -/
structure Arbitrator where
  pending : List OpKind
  deriving DecidableEq

/-- Executor path shared by the three public operations: submit the direct
call to the single worker and wait up to the per-kind deadline on
future.result. completionSeconds is the time until the worker finishes the
job, including jobs queued ahead of it. Within the deadline the caller gets
the body's value, a body exception being re-raised by future.result and then
caught to None; past the deadline future.result raises TimeoutError, caught
to None, and the submitted job is left running on the worker, not
cancelled. -/
def submitAndWait (arb : Arbitrator) (k : OpKind) (completionSeconds : Nat)
    (body : Except PyErr (Option Nat)) : Option Nat × Arbitrator :=
  if completionSeconds ≤ deadlineSeconds k then
    (match body with
     | Except.ok r => r
     | Except.error _ => none, arb)
  else (none, { pending := arb.pending ++ [k] })

/-- PiCameraStream.capture_array (lines 190 to 209): on the creation thread,
call _capture_frame_direct inline with no handler, so its exceptions reach
the caller; from any other thread, submit to the executor with the rawArray
deadline, mapping TimeoutError and every other exception to None. -/
def capture_array (onCreationThread stopped hwOk : Bool) (v completionSeconds : Nat)
    (arb : Arbitrator) : Except PyErr (Option Nat) × Arbitrator :=
  if onCreationThread then (_capture_frame_direct stopped hwOk v, arb)
  else
    let r := submitAndWait arb OpKind.rawArray completionSeconds
      (_capture_frame_direct stopped hwOk v)
    (Except.ok r.1, r.2)

/-- PiCameraStream.capture_image (lines 226 to 244): same dispatch with
_capture_image_direct and the stillImage deadline. -/
def capture_image (onCreationThread stopped hwOk : Bool) (v completionSeconds : Nat)
    (arb : Arbitrator) : Except PyErr (Option Nat) × Arbitrator :=
  if onCreationThread then (_capture_image_direct stopped hwOk v, arb)
  else
    let r := submitAndWait arb OpKind.stillImage completionSeconds
      (_capture_image_direct stopped hwOk v)
    (Except.ok r.1, r.2)

/-- PiCameraStream.get_camera_info (lines 265 to 280): same dispatch with
_get_camera_info_direct and the cameraInfo deadline. -/
def get_camera_info (onCreationThread hwOk : Bool) (v completionSeconds : Nat)
    (arb : Arbitrator) : Except PyErr (Option Nat) × Arbitrator :=
  if onCreationThread then (_get_camera_info_direct hwOk v, arb)
  else
    let r := submitAndWait arb OpKind.cameraInfo completionSeconds
      (_get_camera_info_direct hwOk v)
    (Except.ok r.1, r.2)

end PiCameraStream

namespace PiCameraStream

/-- Teardown steps of PiCameraStream.stop (lines 297 to 331), in program
order: picam2.stop_recording(), picam2.close(), executor shutdown, and the
MediaStreamTrack base stop. -/
inductive TeardownStep where
  | stopRecording
  | closeCamera
  | shutdownExecutor
  | stopTrack
  deriving DecidableEq

/-- Teardown sequence in the order the code runs it. -/
def teardownSeq : List TeardownStep :=
  [TeardownStep.stopRecording, TeardownStep.closeCamera,
   TeardownStep.shutdownExecutor, TeardownStep.stopTrack]

/-- Lifecycle state: the _stopped flag, the teardown step bodies entered so
far, and how many full teardown executions have run. -/
structure Lifecycle where
  stopped : Bool
  attempted : List TeardownStep
  teardownRuns : Nat
  deriving DecidableEq

/-- Body of one teardown step; faults says which step bodies raise. -/
def runStep (faults : TeardownStep → Bool) (st : TeardownStep) : Except PyErr Unit :=
  if faults st then Except.error PyErr.stepFailure else Except.ok ()

/-- PiCameraStream.stop: return immediately when already stopped; otherwise
set _stopped and run every teardown step, each inside its own try/except, so
a failing step is logged and the next step still runs. -/
def stop (faults : TeardownStep → Bool) (s : Lifecycle) : Lifecycle :=
  if s.stopped then s
  else
    { stopped := true,
      attempted := teardownSeq.foldl
        (fun acc st =>
          match runStep faults st with
          | Except.ok _ => acc ++ [st]
          | Except.error _ => acc ++ [st])
        s.attempted,
      teardownRuns := s.teardownRuns + 1 }

/-- The destructor (lines 333 to 341): when not yet stopped, call stop inside
a try/except; stop is total in this model, so the destructor reduces to the
same teardown path. -/
def destructor (faults : TeardownStep → Bool) (s : Lifecycle) : Lifecycle :=
  if s.stopped then s else stop faults s

/-- Program position of a thread running one of the direct device operations,
each of which wraps its device access in the with block of the instance
lock: before the acquire, holding the lock while touching picam2, done. -/
inductive DevicePc where
  | beforeLock
  | touching
  | done
  deriving DecidableEq

/-- Global state of the device mutex model: who holds the instance lock, and
where each thread (identified by a Nat) is in its direct operation. -/
structure DeviceAccessState where
  lockOwner : Option Nat
  pc : Nat → DevicePc

/-- Initial state: lock free, every thread before its acquire. -/
def initDeviceState : DeviceAccessState :=
  { lockOwner := none, pc := fun _ => DevicePc.beforeLock }

/-- Interleaving steps: entering the with block blocks until the lock is
free and then holds it while touching the device; leaving the with block
releases it. -/
inductive DeviceStep : DeviceAccessState → DeviceAccessState → Prop where
  | acquire (t : Nat) (s : DeviceAccessState) :
      s.pc t = DevicePc.beforeLock → s.lockOwner = none →
      DeviceStep s
        { lockOwner := some t,
          pc := fun u => if u = t then DevicePc.touching else s.pc u }
  | release (t : Nat) (s : DeviceAccessState) :
      s.pc t = DevicePc.touching →
      DeviceStep s
        { lockOwner := none,
          pc := fun u => if u = t then DevicePc.done else s.pc u }

/-- States reachable from the initial state by interleaved steps of any
number of threads. -/
inductive DeviceReach : DeviceAccessState → Prop where
  | init : DeviceReach initDeviceState
  | step (s s2 : DeviceAccessState) : DeviceReach s → DeviceStep s s2 →
      DeviceReach s2

/-- Drain loop of the single executor worker: it repeatedly takes the oldest
submitted job from its work queue and completes it before taking the next,
accumulating the completion order. -/
def workerDrain (finished pending : List OpKind) : List OpKind :=
  match pending with
  | [] => finished
  | j :: rest => workerDrain (finished ++ [j]) rest

end PiCameraStream

namespace PyQueue

theorem enqueueDropOldest_notFull {α : Type} (q : PyQueue α) (x : α)
    (h : q.items.length < q.maxsize) :
    q.enqueueDropOldest x = ⟨⟨q.maxsize, q.items ++ [x]⟩, true, false⟩ := by
  have hf : q.full = false := by
    simp only [full, Bool.and_eq_false_iff, decide_eq_false_iff_not, not_le, not_lt]
    omega
  simp [enqueueDropOldest, put_nowait, hf]

theorem enqueueDropOldest_full {α : Type} (q : PyQueue α) (x : α)
    (h0 : 0 < q.maxsize) (hlen : q.items.length = q.maxsize) :
    q.enqueueDropOldest x = ⟨⟨q.maxsize, q.items.tail ++ [x]⟩, true, false⟩ := by
  have hf : q.full = true := by
    simp only [full, Bool.and_eq_true, decide_eq_true_eq]
    omega
  obtain ⟨a, t, hat⟩ : ∃ a t, q.items = a :: t := by
    cases hq : q.items with
    | nil => rw [hq] at hlen; simp at hlen; omega
    | cons a t => exact ⟨a, t, rfl⟩
  have hf2 : (PyQueue.mk q.maxsize t : PyQueue α).full = false := by
    simp only [full, Bool.and_eq_false_iff, decide_eq_false_iff_not, not_le, not_lt]
    rw [hat] at hlen
    simp at hlen
    omega
  simp [enqueueDropOldest, put_nowait, get_nowait, hf, hat, hf2]

theorem pushSeq_cons {α : Type} (q : PyQueue α) (x : α) (xs : List α) :
    q.pushSeq (x :: xs) = ((q.enqueueDropOldest x).queue).pushSeq xs := rfl

theorem pushSeq_items {α : Type} (xs : List α) : ∀ (q : PyQueue α),
    0 < q.maxsize → q.items.length ≤ q.maxsize →
    q.pushSeq xs = ⟨q.maxsize,
      (q.items ++ xs).drop (q.items.length + xs.length - q.maxsize)⟩ := by
  induction xs with
  | nil =>
    intro q h0 hle
    simp only [pushSeq, List.foldl_nil, List.append_nil, List.length_nil,
      Nat.add_zero]
    rw [Nat.sub_eq_zero_of_le hle]
    rfl
  | cons x xs ih =>
    intro q h0 hle
    rw [pushSeq_cons]
    by_cases h : q.items.length < q.maxsize
    · rw [enqueueDropOldest_notFull q x h]
      rw [ih ⟨q.maxsize, q.items ++ [x]⟩ h0 (by simp; omega)]
      dsimp only
      have e2 : (q.items ++ [x]).length + xs.length - q.maxsize
          = q.items.length + (x :: xs).length - q.maxsize := by
        simp only [List.length_append, List.length_cons, List.length_nil]
        omega
      rw [e2, List.append_assoc, List.singleton_append]
    · have hlen : q.items.length = q.maxsize := by omega
      rw [enqueueDropOldest_full q x h0 hlen]
      obtain ⟨a, t, hat⟩ : ∃ a t, q.items = a :: t := by
        cases hq : q.items with
        | nil => rw [hq] at hlen; simp at hlen; omega
        | cons a t => exact ⟨a, t, rfl⟩
      have htl : t.length + 1 = q.maxsize := by
        rw [hat] at hlen; simpa using hlen
      rw [ih ⟨q.maxsize, q.items.tail ++ [x]⟩ h0 (by simp [hat]; omega)]
      rw [hat]
      dsimp only [List.tail_cons]
      have e2 : (t ++ [x]).length + xs.length - q.maxsize = xs.length := by
        simp only [List.length_append, List.length_cons, List.length_nil]
        omega
      have e3 : (a :: t).length + (x :: xs).length - q.maxsize = xs.length + 1 := by
        simp only [List.length_cons]
        omega
      rw [e2, e3, List.append_assoc, List.singleton_append, List.cons_append,
        List.drop_succ_cons]

end PyQueue

/-- C1: a bounded frame channel of capacity C under N sequential pushes with
no intervening pops: when N exceeds C the final occupancy is exactly C and
the retained frames are exactly the C most recently pushed ones in FIFO
order; the occupancy never exceeds C after any prefix of the pushes; the
configured default capacity is 30; and with capacity 3 and pushes 1..5 the
channel holds exactly frames 3, 4, 5. -/
theorem boundedChannelDropOldest (xs : List Nat) (C : Nat) (hC : 0 < C)
    (hN : C < xs.length) :
    (PyQueue.pushSeq ⟨C, []⟩ xs).items = xs.drop (xs.length - C)
    ∧ (PyQueue.pushSeq ⟨C, []⟩ xs).items.length = C
    ∧ (∀ n : Nat, (PyQueue.pushSeq ⟨C, []⟩ (xs.take n)).items.length ≤ C)
    ∧ defaultQueueMaxsize = 30
    ∧ (PyQueue.pushSeq ⟨3, ([] : List Nat)⟩ [1, 2, 3, 4, 5]).items = [3, 4, 5] := by
  have hmain := PyQueue.pushSeq_items xs ⟨C, []⟩ hC (by simp)
  simp only [List.nil_append, List.length_nil, Nat.zero_add] at hmain
  refine ⟨?_, ?_, ?_, rfl, by decide⟩
  · rw [hmain]
  · rw [hmain]
    simp only [List.length_drop]
    omega
  · intro n
    have hp := PyQueue.pushSeq_items (xs.take n) ⟨C, []⟩ hC (by simp)
    simp only [List.nil_append, List.length_nil, Nat.zero_add] at hp
    rw [hp]
    simp only [List.length_drop]
    omega

/-- C1 witness: the general theorem instantiated with capacity 3 and the
pushes 1..5. -/
theorem boundedChannelDropOldest_witness :
    0 < 3 ∧ 3 < ([1, 2, 3, 4, 5] : List Nat).length ∧
    (PyQueue.pushSeq ⟨3, ([] : List Nat)⟩ [1, 2, 3, 4, 5]).items = [3, 4, 5] :=
  ⟨by decide, by decide,
   (boundedChannelDropOldest [1, 2, 3, 4, 5] 3 (by decide) (by decide)).2.2.2.2⟩

theorem outputframe_queue (s : QueueOutput) (now_ns : Nat) (inp : FrameInput) :
    (s.outputframe now_ns inp).queue =
      (if inp.constructOk then (s.queue.enqueueDropOldest (mkPacket now_ns inp)).queue
       else s.queue) := by
  by_cases h : inp.constructOk <;> simp [QueueOutput.outputframe, h]

theorem outputframe_wf (s : QueueOutput) (now_ns : Nat) (inp : FrameInput)
    (h0 : 0 < s.queue.maxsize) (hle : s.queue.items.length ≤ s.queue.maxsize) :
    (s.outputframe now_ns inp).queue.maxsize = s.queue.maxsize
    ∧ (s.outputframe now_ns inp).queue.items.length ≤ s.queue.maxsize
    ∧ (s.outputframe now_ns inp).frame_index
        = (if inp.constructOk then s.frame_index + 1 else s.frame_index) := by
  by_cases h : inp.constructOk
  · by_cases hlt : s.queue.items.length < s.queue.maxsize
    · simp only [QueueOutput.outputframe, h, if_true,
        PyQueue.enqueueDropOldest_notFull s.queue (mkPacket now_ns inp) hlt]
      refine ⟨trivial, ?_, trivial⟩
      simp only [List.length_append, List.length_cons, List.length_nil]
      omega
    · have hlen : s.queue.items.length = s.queue.maxsize := by omega
      simp only [QueueOutput.outputframe, h, if_true,
        PyQueue.enqueueDropOldest_full s.queue (mkPacket now_ns inp) h0 hlen]
      refine ⟨trivial, ?_, trivial⟩
      simp only [List.length_append, List.length_tail, List.length_cons,
        List.length_nil]
      omega
  · simp [QueueOutput.outputframe, h, hle]

theorem runProducer_frame_index (calls : List (Nat × FrameInput)) :
    ∀ (s : QueueOutput), 0 < s.queue.maxsize →
    s.queue.items.length ≤ s.queue.maxsize →
    (runProducer s calls).frame_index
      = s.frame_index + calls.countP (fun c => c.2.constructOk) := by
  induction calls with
  | nil => intro s h0 hle; simp [runProducer]
  | cons c calls ih =>
    intro s h0 hle
    have hw := outputframe_wf s c.1 c.2 h0 hle
    have hrec := ih (s.outputframe c.1 c.2) (by rw [hw.1]; exact h0)
      (by calc (s.outputframe c.1 c.2).queue.items.length
            ≤ s.queue.maxsize := hw.2.1
          _ = (s.outputframe c.1 c.2).queue.maxsize := hw.1.symm)
    rw [show runProducer s (c :: calls)
          = runProducer (s.outputframe c.1 c.2) calls from rfl]
    rw [hrec, hw.2.2, List.countP_cons]
    by_cases hok : c.2.constructOk <;> (simp [hok]; try omega)

/-- C2: timestamp synthesis: the presentation timestamp is exactly the floor
of raw_us times 90 over 1000 (1000 gives 90, 0 gives 0, 2000 gives 180);
when no raw timestamp is supplied the current wall clock in microseconds is
substituted into the same conversion; and every constructed packet carries a
time_base of exactly 1 over 90000, the packet being what outputframe
enqueues whenever construction succeeds. -/
theorem timestampSynthesis (ts now_ns : Nat) (s : QueueOutput) (inp : FrameInput) :
    synthesize ts = Nat.floor ((ts : ℚ) * 90 / 1000)
    ∧ synthesize 1000 = 90 ∧ synthesize 0 = 0 ∧ synthesize 2000 = 180
    ∧ (mkPacket now_ns { inp with timestamp := some ts }).pts = synthesize ts
    ∧ (mkPacket now_ns { inp with timestamp := none }).pts = synthesize (now_ns / 1000)
    ∧ (mkPacket now_ns inp).time_base = (1, 90000)
    ∧ ((mkPacket now_ns inp).time_base.1 : ℚ) / ((mkPacket now_ns inp).time_base.2 : ℚ)
        = 1 / 90000
    ∧ (s.outputframe now_ns inp).queue =
        (if inp.constructOk then (s.queue.enqueueDropOldest (mkPacket now_ns inp)).queue
         else s.queue) := by
  refine ⟨?_, by decide, by decide, by decide, rfl, rfl, rfl,
    by norm_num [mkPacket], outputframe_queue s now_ns inp⟩
  have h1 : ((ts : ℚ) * 90) = ((ts * 90 : ℕ) : ℚ) := by push_cast; ring
  rw [h1, Nat.floor_div_ofNat, Nat.floor_natCast]
  rfl

/-- C3 counterexample: an invocation whose av.Packet construction fails never
reaches the frame_index increment, so the counter advances zero times, not
exactly once, for that invocation: from a fresh producer one failing
invocation leaves frame_index at 0 instead of 1. -/
theorem sequenceCounterClaimFalse :
    ¬ ((QueueOutput.outputframe ⟨⟨30, []⟩, 0⟩ 0 ⟨0, true, none, false⟩).frame_index
        = 0 + 1) := by
  decide

/-- C3 amended: the sequence counter advances exactly once per invocation
whose packet construction succeeds (including invocations that evict an
oldest frame) and zero times when the construction fails before the
increment; it never decreases, and over any whole run it equals the count of
successful invocations, so each successful frame gets a fresh, never reused
counter value in strictly increasing order. -/
theorem sequenceCounterAmended (s : QueueOutput) (now_ns : Nat) (inp : FrameInput)
    (calls : List (Nat × FrameInput))
    (h0 : 0 < s.queue.maxsize) (hle : s.queue.items.length ≤ s.queue.maxsize) :
    (s.outputframe now_ns inp).frame_index
      = (if inp.constructOk then s.frame_index + 1 else s.frame_index)
    ∧ s.frame_index ≤ (s.outputframe now_ns inp).frame_index
    ∧ (runProducer s calls).frame_index
        = s.frame_index + calls.countP (fun c => c.2.constructOk) := by
  have hw := outputframe_wf s now_ns inp h0 hle
  refine ⟨hw.2.2, ?_, runProducer_frame_index calls s h0 hle⟩
  rw [hw.2.2]
  by_cases hok : inp.constructOk <;> simp [hok]

/-- C3 witness: a successful invocation from a fresh producer advances the
counter to exactly 1. -/
theorem sequenceCounterAmended_witness :
    (QueueOutput.outputframe ⟨⟨30, []⟩, 0⟩ 0 ⟨0, true, none, true⟩).frame_index
      = 0 + 1 := by
  have h := sequenceCounterAmended ⟨⟨30, []⟩, 0⟩ 0 ⟨0, true, none, true⟩ []
    (by decide) (by decide)
  simpa using h.1

theorem outputframe_getLast (s : QueueOutput) (now_ns : Nat) (inp : FrameInput)
    (h0 : 0 < s.queue.maxsize) (hle : s.queue.items.length ≤ s.queue.maxsize)
    (hok : inp.constructOk = true) :
    (s.outputframe now_ns inp).queue.items.getLast? = some (mkPacket now_ns inp) := by
  by_cases hlt : s.queue.items.length < s.queue.maxsize
  · simp only [QueueOutput.outputframe, hok, if_true,
      PyQueue.enqueueDropOldest_notFull s.queue (mkPacket now_ns inp) hlt]
    rw [List.getLast?_append_cons]
    rfl
  · have hlen : s.queue.items.length = s.queue.maxsize := by omega
    simp only [QueueOutput.outputframe, hok, if_true,
      PyQueue.enqueueDropOldest_full s.queue (mkPacket now_ns inp) h0 hlen]
    rw [List.getLast?_append_cons]
    rfl

/-- C4: producer fault isolation: a failing invocation is swallowed, leaving
the producer state unchanged rather than propagating an exception to the
encoder thread; a successful invocation always lands its packet at the tail
of the queue; and after a failing invocation the very next successful one is
still accepted, enqueued and counted. -/
theorem producerFaultIsolation (s : QueueOutput) (now_ns now2 : Nat)
    (inp inp2 : FrameInput)
    (h0 : 0 < s.queue.maxsize) (hle : s.queue.items.length ≤ s.queue.maxsize) :
    (inp.constructOk = false → s.outputframe now_ns inp = s)
    ∧ (inp.constructOk = true →
        (s.outputframe now_ns inp).queue.items.getLast? = some (mkPacket now_ns inp))
    ∧ (inp.constructOk = false → inp2.constructOk = true →
        ((s.outputframe now_ns inp).outputframe now2 inp2).queue.items.getLast?
            = some (mkPacket now2 inp2)
        ∧ ((s.outputframe now_ns inp).outputframe now2 inp2).frame_index
            = s.frame_index + 1) := by
  have hswallow : inp.constructOk = false → s.outputframe now_ns inp = s := by
    intro h
    simp [QueueOutput.outputframe, h]
  refine ⟨hswallow, outputframe_getLast s now_ns inp h0 hle, ?_⟩
  intro hbad hgood
  rw [hswallow hbad]
  refine ⟨outputframe_getLast s now2 inp2 h0 hle hgood, ?_⟩
  rw [(outputframe_wf s now2 inp2 h0 hle).2.2, hgood]
  simp

/-- C4 witness: a failing invocation followed by a successful one on a fresh
producer ends with the successful frame enqueued and counted. -/
theorem producerFaultIsolation_witness :
    ((QueueOutput.outputframe (QueueOutput.outputframe ⟨⟨30, []⟩, 0⟩ 0
        ⟨0, true, none, false⟩) 1 ⟨1, true, none, true⟩).frame_index = 0 + 1) := by
  have h := producerFaultIsolation ⟨⟨30, []⟩, 0⟩ 0 1 ⟨0, true, none, false⟩
    ⟨1, true, none, true⟩ (by decide) (by decide)
  exact (h.2.2 rfl rfl).2

/-- C5: consumer result discipline: when a packet is available within the
bounded wait it is returned; when the wait times out the call yields the
cancellation signal rather than an error; once stopped, every call yields
the cancellation signal immediately without performing any wait; and the
poll timeout is 1 second. -/
theorem consumerResultDiscipline (q : PyQueue Packet) (ms : Nat) (p : Packet)
    (rest : List Packet) :
    PiCameraStream.recv true q = ⟨RecvResult.cancelledError, false, q⟩
    ∧ PiCameraStream.recv false ⟨ms, p :: rest⟩
        = ⟨RecvResult.packet p, true, ⟨ms, rest⟩⟩
    ∧ PiCameraStream.recv false ⟨ms, []⟩
        = ⟨RecvResult.cancelledError, true, ⟨ms, []⟩⟩
    ∧ PiCameraStream.recvPollTimeoutSeconds = 1 :=
  ⟨rfl, rfl, rfl, rfl⟩

/-- C6: arbitrator timeout semantics: a caller off the creation thread (the
thread entitled to run device operations inline) waits up to the per-kind
deadline, 10 seconds for a still image, 5 for a raw array, 2 for an info
query; when the worker does not finish within that deadline the caller gets
the failure value None while the submitted job stays on the worker,
uncancelled. -/
theorem arbitrationTimeoutSemantics (arb : PiCameraStream.Arbitrator)
    (stopped hwOk : Bool) (v t : Nat) :
    (PiCameraStream.deadlineSeconds PiCameraStream.OpKind.stillImage = 10
      ∧ PiCameraStream.deadlineSeconds PiCameraStream.OpKind.rawArray = 5
      ∧ PiCameraStream.deadlineSeconds PiCameraStream.OpKind.cameraInfo = 2)
    ∧ (10 < t → PiCameraStream.capture_image false stopped hwOk v t arb
        = (Except.ok none,
           ⟨arb.pending ++ [PiCameraStream.OpKind.stillImage]⟩))
    ∧ (5 < t → PiCameraStream.capture_array false stopped hwOk v t arb
        = (Except.ok none,
           ⟨arb.pending ++ [PiCameraStream.OpKind.rawArray]⟩))
    ∧ (2 < t → PiCameraStream.get_camera_info false hwOk v t arb
        = (Except.ok none,
           ⟨arb.pending ++ [PiCameraStream.OpKind.cameraInfo]⟩)) := by
  refine ⟨⟨rfl, rfl, rfl⟩, ?_, ?_, ?_⟩
  · intro ht
    simp [PiCameraStream.capture_image, PiCameraStream.submitAndWait,
      PiCameraStream.deadlineSeconds, Nat.not_le.mpr ht]
  · intro ht
    simp [PiCameraStream.capture_array, PiCameraStream.submitAndWait,
      PiCameraStream.deadlineSeconds, Nat.not_le.mpr ht]
  · intro ht
    simp [PiCameraStream.get_camera_info, PiCameraStream.submitAndWait,
      PiCameraStream.deadlineSeconds, Nat.not_le.mpr ht]

/-- C6 witness: with a worker completion time of 11 seconds, all three
operations time out for an off-creation-thread caller, returning None and
leaving the submitted job pending. -/
theorem arbitrationTimeoutSemantics_witness :
    PiCameraStream.capture_image false false true 0 11 ⟨[]⟩
      = (Except.ok none, ⟨[PiCameraStream.OpKind.stillImage]⟩)
    ∧ PiCameraStream.capture_array false false true 0 11 ⟨[]⟩
      = (Except.ok none, ⟨[PiCameraStream.OpKind.rawArray]⟩)
    ∧ PiCameraStream.get_camera_info false true 0 11 ⟨[]⟩
      = (Except.ok none, ⟨[PiCameraStream.OpKind.cameraInfo]⟩) := by
  have h := arbitrationTimeoutSemantics ⟨[]⟩ false true 0 11
  exact ⟨by simpa using h.2.1 (by decide), by simpa using h.2.2.1 (by decide),
    by simpa using h.2.2.2 (by decide)⟩

/-- C9 counterexample: after stop, a capture_array call on the creation
thread takes the inline path, whose stopped check raises RuntimeError with
no handler in capture_array, so the caller does not receive a result or a
failure value: the claim that no unhandled exception ever escapes in any
pipeline state is false. -/
theorem arbitratorOutcomeClaimFalse :
    ¬ (∃ r : Option Nat,
        (PiCameraStream.capture_array true true true 0 0 ⟨[]⟩).1 = Except.ok r) := by
  rintro ⟨r, h⟩
  simp [PiCameraStream.capture_array, PiCameraStream._capture_frame_direct] at h

/-- C9 amended: callers off the creation thread always receive a value (a
result or None) from all three operations, in every pipeline state; inline
get_camera_info also never raises; but the inline creation-thread paths of
capture_array and capture_image raise RuntimeError when the pipeline is
stopped. -/
theorem arbitratorOutcomeAmended (stopped hwOk onCreation : Bool) (v t : Nat)
    (arb : PiCameraStream.Arbitrator) :
    (∃ r, (PiCameraStream.capture_array false stopped hwOk v t arb).1 = Except.ok r)
    ∧ (∃ r, (PiCameraStream.capture_image false stopped hwOk v t arb).1 = Except.ok r)
    ∧ (∃ r, (PiCameraStream.get_camera_info onCreation hwOk v t arb).1 = Except.ok r)
    ∧ (∃ r, (PiCameraStream.capture_array true false hwOk v t arb).1 = Except.ok r)
    ∧ (∃ r, (PiCameraStream.capture_image true false hwOk v t arb).1 = Except.ok r)
    ∧ (PiCameraStream.capture_array true true hwOk v t arb).1
        = Except.error PyErr.runtimeStopped
    ∧ (PiCameraStream.capture_image true true hwOk v t arb).1
        = Except.error PyErr.runtimeStopped := by
  refine ⟨⟨_, rfl⟩, ⟨_, rfl⟩, ?_, ?_, ?_, rfl, rfl⟩
  · cases onCreation
    · exact ⟨_, rfl⟩
    · cases hwOk
      · exact ⟨none, rfl⟩
      · exact ⟨some v, rfl⟩
  · cases hwOk
    · exact ⟨none, rfl⟩
    · exact ⟨some v, rfl⟩
  · cases hwOk
    · exact ⟨none, rfl⟩
    · exact ⟨some v, rfl⟩

theorem teardownFold (faults : PiCameraStream.TeardownStep → Bool) :
    ∀ (l acc : List PiCameraStream.TeardownStep),
    l.foldl (fun acc st =>
      match PiCameraStream.runStep faults st with
      | Except.ok _ => acc ++ [st]
      | Except.error _ => acc ++ [st]) acc = acc ++ l := by
  intro l
  induction l with
  | nil => intro acc; simp
  | cons st l ih =>
    intro acc
    rw [List.foldl_cons]
    have hm : (match PiCameraStream.runStep faults st with
      | Except.ok _ => acc ++ [st]
      | Except.error _ => acc ++ [st]) = acc ++ [st] := by
      cases PiCameraStream.runStep faults st <;> rfl
    rw [hm, ih]
    simp

/-- C8: lifecycle teardown: stop is idempotent, a second call on an already
stopped pipeline being a no-op, so two sequential calls yield exactly one
teardown execution; every teardown step body is entered regardless of which
step bodies fail, each being wrapped in its own handler; and the destructor
reduces to the same teardown path as an explicit stop. -/
theorem lifecycleTeardown (faults : PiCameraStream.TeardownStep → Bool)
    (s : PiCameraStream.Lifecycle) :
    PiCameraStream.stop faults (PiCameraStream.stop faults s)
        = PiCameraStream.stop faults s
    ∧ (PiCameraStream.stop faults ⟨false, [], 0⟩).teardownRuns = 1
    ∧ (PiCameraStream.stop faults
        (PiCameraStream.stop faults ⟨false, [], 0⟩)).teardownRuns = 1
    ∧ (PiCameraStream.stop faults ⟨false, [], 0⟩).attempted
        = PiCameraStream.teardownSeq
    ∧ PiCameraStream.destructor faults s = PiCameraStream.stop faults s := by
  refine ⟨?_, by simp [PiCameraStream.stop], by simp [PiCameraStream.stop], ?_, ?_⟩
  · by_cases hs : s.stopped <;> simp [PiCameraStream.stop, hs]
  · simp only [PiCameraStream.stop, Bool.false_eq_true, if_false]
    exact teardownFold faults PiCameraStream.teardownSeq []
  · by_cases hs : s.stopped <;>
      simp [PiCameraStream.destructor, PiCameraStream.stop, hs]

theorem deviceLockInvariant (s : PiCameraStream.DeviceAccessState)
    (h : PiCameraStream.DeviceReach s) :
    ∀ t : Nat, s.pc t = PiCameraStream.DevicePc.touching → s.lockOwner = some t := by
  induction h with
  | init =>
    intro t ht
    simp [PiCameraStream.initDeviceState] at ht
  | step s1 s2 hre hstep ih =>
    intro t ht
    cases hstep with
    | acquire t0 s0 hpc hlock =>
      by_cases he : t = t0
      · subst he
        rfl
      · have hpt : s1.pc t = PiCameraStream.DevicePc.touching := by
          simpa [he] using ht
        have hcontra := ih t hpt
        rw [hlock] at hcontra
        simp at hcontra
    | release t0 s0 hpc =>
      by_cases he : t = t0
      · subst he
        simp at ht
      · have hpt : s1.pc t = PiCameraStream.DevicePc.touching := by
          simpa [he] using ht
        have h1 := ih t hpt
        have h2 := ih t0 hpc
        rw [h1] at h2
        exact absurd (Option.some.inj h2) he

theorem workerDrain_eq (pending : List PiCameraStream.OpKind) :
    ∀ finished, PiCameraStream.workerDrain finished pending = finished ++ pending := by
  induction pending with
  | nil => intro finished; simp [PiCameraStream.workerDrain]
  | cons j rest ih =>
    intro finished
    rw [show PiCameraStream.workerDrain finished (j :: rest)
          = PiCameraStream.workerDrain (finished ++ [j]) rest from rfl, ih]
    simp

/-- C7: hardware serialization: in every reachable interleaving of the lock
model no two distinct threads are simultaneously touching the device, and
the single executor worker completes submitted jobs one at a time in exactly
their submission order. -/
theorem hardwareSerialization :
    (∀ s : PiCameraStream.DeviceAccessState, PiCameraStream.DeviceReach s →
      ∀ t u : Nat, s.pc t = PiCameraStream.DevicePc.touching →
        s.pc u = PiCameraStream.DevicePc.touching → t = u)
    ∧ (∀ jobs : List PiCameraStream.OpKind,
        PiCameraStream.workerDrain [] jobs = jobs)
    ∧ PiCameraStream.executorMaxWorkers = 1 := by
  refine ⟨?_, ?_, rfl⟩
  · intro s hs t u ht hu
    have h1 := deviceLockInvariant s hs t ht
    have h2 := deviceLockInvariant s hs u hu
    rw [h1] at h2
    exact Option.some.inj h2
  · intro jobs
    simpa using workerDrain_eq jobs []

/-- C7 witness: the serialization property applied to the reachable state in
which thread 0 has just acquired the lock, plus the drain order of a
concrete two-job submission. -/
theorem hardwareSerialization_witness :
    (0 : Nat) = 0
    ∧ PiCameraStream.workerDrain []
        [PiCameraStream.OpKind.rawArray, PiCameraStream.OpKind.stillImage]
      = [PiCameraStream.OpKind.rawArray, PiCameraStream.OpKind.stillImage] := by
  refine ⟨?_, hardwareSerialization.2.1 _⟩
  exact hardwareSerialization.1 _
    (PiCameraStream.DeviceReach.step _ _ PiCameraStream.DeviceReach.init
      (PiCameraStream.DeviceStep.acquire 0 PiCameraStream.initDeviceState rfl rfl))
    0 0 rfl rfl

/-- C10: every direct device operation wraps its device access in the
instance lock, so device accesses are pairwise mutually exclusive: in any
reachable interleaving, two threads simultaneously inside their lock-guarded
device touch are the same thread, even though the creation-thread inline
fast path bypasses the single-worker executor queue. -/
theorem deviceAccessesMutuallyExclusive (s : PiCameraStream.DeviceAccessState)
    (h : PiCameraStream.DeviceReach s) (t u : Nat)
    (ht : s.pc t = PiCameraStream.DevicePc.touching)
    (hu : s.pc u = PiCameraStream.DevicePc.touching) : t = u := by
  have h1 := deviceLockInvariant s h t ht
  have h2 := deviceLockInvariant s h u hu
  rw [h1] at h2
  exact Option.some.inj h2

/-- C10 witness: the mutual exclusion theorem applied to the reachable state
in which thread 0 has just acquired the lock and is touching the device. -/
theorem deviceAccessesMutuallyExclusive_witness : (0 : Nat) = 0 :=
  deviceAccessesMutuallyExclusive _
    (PiCameraStream.DeviceReach.step _ _ PiCameraStream.DeviceReach.init
      (PiCameraStream.DeviceStep.acquire 0 PiCameraStream.initDeviceState rfl rfl))
    0 0 rfl rfl
